import Mathlib

/-!
Verification development for the DrivingManualAgent indexing pipeline.

This file gives a shallow embedding, in Lean 4, of the core indexing
components of the repository:

* `DocumentIndexer.chunk_text`, `DocumentIndexer.generate_embeddings`,
  `DocumentIndexer.upload_to_search` and the batching loop of
  `DocumentIndexer.index_document` (src/indexing/index_documents.py);
* `IndexerRunner.wait_for_completion` (src/indexing/trigger_indexer.py);
* `IndexerPipelineRunner._monitor_execution`
  (src/indexing/run_indexer_pipeline.py);
* `EnrichmentValidator.validate_all_documents` and its four checks
  (src/indexing/validate_enrichment.py).

Python strings are modelled as `String`/`List Char`, Python ints as `Nat`,
fallible paths as `Except`/`Option`, the polling loops as fuel-indexed
recursions over a scripted remote service (one script index per poll), and
the possibility of a raised exception as an `Except.error` value.  Real
(float) percentage comparisons are modelled exactly, by integer
cross-multiplication, as noted at each definition.
-/

set_option maxHeartbeats 1000000

namespace DMA

/-! ### Base64 url-safe encoding

Model of Python `base64.urlsafe_b64encode`: the standard base64 encoding of a
byte sequence, with `'-'` and `'_'` in place of `'+'` and `'/'`, padded with
`'='`.  Bytes are modelled as natural numbers below 256. -/

/-- The url-safe base64 alphabet, in index order. -/
def b64Alphabet : List Char :=
  "ABCDEFGHIJKLMNOPQRSTUVWXYZabcdefghijklmnopqrstuvwxyz0123456789-_".data

/-- The alphabet character for a 6-bit group. -/
def b64Digit (n : Nat) : Char := b64Alphabet.getD n 'A'

/-- Url-safe base64 encoding of a byte list, three bytes to four characters,
with `'='` padding exactly as `base64.urlsafe_b64encode` produces it. -/
def b64encode : List Nat → List Char
  | [] => []
  | [b1] => [b64Digit (b1 / 4), b64Digit (b1 % 4 * 16), '=', '=']
  | [b1, b2] => [b64Digit (b1 / 4), b64Digit (b1 % 4 * 16 + b2 / 16),
                 b64Digit (b2 % 16 * 4), '=']
  | b1 :: b2 :: b3 :: rest =>
      b64Digit (b1 / 4) :: b64Digit (b1 % 4 * 16 + b2 / 16) ::
      b64Digit (b2 % 16 * 4 + b3 / 64) :: b64Digit (b3 % 64) :: b64encode rest

/-- Characters that `urlsafe_b64encode` may emit: the url-safe alphabet plus
the `'='` padding character. -/
def isB64UrlChar (c : Char) : Bool := b64Alphabet.contains c || c = '='

theorem b64Digit_inj : ∀ a, a < 64 → ∀ b, b < 64 → b64Digit a = b64Digit b → a = b := by
  decide

theorem b64Digit_ne_pad : ∀ a, a < 64 → b64Digit a ≠ '=' := by
  decide

theorem b64Digit_urlSafe : ∀ a, a < 64 → isB64UrlChar (b64Digit a) = true := by
  decide

theorem b64encode_urlSafe :
    ∀ l : List Nat, (∀ b ∈ l, b < 256) → ∀ c ∈ b64encode l, isB64UrlChar c = true := by
  intro l
  induction l using b64encode.induct with
  | case1 =>
    intro _ c hc
    simp [b64encode] at hc
  | case2 b1 =>
    intro hb c hc
    have h1 : b1 < 256 := hb b1 (by simp)
    simp only [b64encode, List.mem_cons, List.not_mem_nil, or_false] at hc
    rcases hc with h | h | h | h <;> subst h
    · exact b64Digit_urlSafe _ (by omega)
    · exact b64Digit_urlSafe _ (by omega)
    · simp [isB64UrlChar]
    · simp [isB64UrlChar]
  | case3 b1 b2 =>
    intro hb c hc
    have h1 : b1 < 256 := hb b1 (by simp)
    have h2 : b2 < 256 := hb b2 (by simp)
    simp only [b64encode, List.mem_cons, List.not_mem_nil, or_false] at hc
    rcases hc with h | h | h | h <;> subst h
    · exact b64Digit_urlSafe _ (by omega)
    · exact b64Digit_urlSafe _ (by omega)
    · exact b64Digit_urlSafe _ (by omega)
    · simp [isB64UrlChar]
  | case4 b1 b2 b3 rest ih =>
    intro hb c hc
    have h1 : b1 < 256 := hb b1 (by simp)
    have h2 : b2 < 256 := hb b2 (by simp)
    have h3 : b3 < 256 := hb b3 (by simp)
    simp only [b64encode, List.mem_cons] at hc
    rcases hc with h | h | h | h | h
    · subst h; exact b64Digit_urlSafe _ (by omega)
    · subst h; exact b64Digit_urlSafe _ (by omega)
    · subst h; exact b64Digit_urlSafe _ (by omega)
    · subst h; exact b64Digit_urlSafe _ (by omega)
    · exact ih (fun b hbm => hb b (by simp [hbm])) c h

theorem b64encode_inj :
    ∀ l1 l2 : List Nat, (∀ b ∈ l1, b < 256) → (∀ b ∈ l2, b < 256) →
      b64encode l1 = b64encode l2 → l1 = l2 := by
  intro l1
  induction l1 using b64encode.induct with
  | case1 =>
    intro l2 _ _ h
    rcases l2 with _ | ⟨c1, _ | ⟨c2, _ | ⟨c3, r2⟩⟩⟩ <;> simp [b64encode] at h ⊢
  | case2 b1 =>
    intro l2 hb1 hb2 h
    have hx1 : b1 < 256 := hb1 b1 (by simp)
    rcases l2 with _ | ⟨c1, _ | ⟨c2, _ | ⟨c3, r2⟩⟩⟩
    · simp [b64encode] at h
    · have hy1 : c1 < 256 := hb2 c1 (by simp)
      simp only [b64encode, List.cons.injEq, and_true] at h
      obtain ⟨e1, e2⟩ := h
      have f1 := b64Digit_inj _ (by omega) _ (by omega) e1
      have f2 := b64Digit_inj _ (by omega) _ (by omega) e2
      simp only [List.cons.injEq, and_true]
      omega
    · have hy2 : c2 < 256 := hb2 c2 (by simp)
      simp only [b64encode, List.cons.injEq, and_true] at h
      obtain ⟨-, -, e3⟩ := h
      exact absurd e3.symm (b64Digit_ne_pad _ (by omega))
    · have hy2 : c2 < 256 := hb2 c2 (by simp)
      have hy3 : c3 < 256 := hb2 c3 (by simp)
      simp only [b64encode, List.cons.injEq] at h
      obtain ⟨-, -, e3, -⟩ := h
      exact absurd e3.symm (b64Digit_ne_pad _ (by omega))
  | case3 b1 b2 =>
    intro l2 hb1 hb2 h
    have hx1 : b1 < 256 := hb1 b1 (by simp)
    have hx2 : b2 < 256 := hb1 b2 (by simp)
    rcases l2 with _ | ⟨c1, _ | ⟨c2, _ | ⟨c3, r2⟩⟩⟩
    · simp [b64encode] at h
    · simp only [b64encode, List.cons.injEq, and_true] at h
      obtain ⟨-, -, e3⟩ := h
      exact absurd e3 (b64Digit_ne_pad _ (by omega))
    · have hy1 : c1 < 256 := hb2 c1 (by simp)
      have hy2 : c2 < 256 := hb2 c2 (by simp)
      simp only [b64encode, List.cons.injEq, and_true] at h
      obtain ⟨e1, e2, e3⟩ := h
      have f1 := b64Digit_inj _ (by omega) _ (by omega) e1
      have f2 := b64Digit_inj _ (by omega) _ (by omega) e2
      have f3 := b64Digit_inj _ (by omega) _ (by omega) e3
      simp only [List.cons.injEq, and_true]
      omega
    · have hy3 : c3 < 256 := hb2 c3 (by simp)
      simp only [b64encode, List.cons.injEq] at h
      obtain ⟨-, -, -, e4, -⟩ := h
      exact absurd e4.symm (b64Digit_ne_pad _ (by omega))
  | case4 b1 b2 b3 rest ih =>
    intro l2 hb1 hb2 h
    have hx1 : b1 < 256 := hb1 b1 (by simp)
    have hx2 : b2 < 256 := hb1 b2 (by simp)
    have hx3 : b3 < 256 := hb1 b3 (by simp)
    rcases l2 with _ | ⟨c1, _ | ⟨c2, _ | ⟨c3, r2⟩⟩⟩
    · simp [b64encode] at h
    · simp only [b64encode, List.cons.injEq] at h
      obtain ⟨-, -, e3, -⟩ := h
      exact absurd e3 (b64Digit_ne_pad _ (by omega))
    · simp only [b64encode, List.cons.injEq] at h
      obtain ⟨-, -, -, e4, -⟩ := h
      exact absurd e4 (b64Digit_ne_pad _ (by omega))
    · have hy1 : c1 < 256 := hb2 c1 (by simp)
      have hy2 : c2 < 256 := hb2 c2 (by simp)
      have hy3 : c3 < 256 := hb2 c3 (by simp)
      simp only [b64encode, List.cons.injEq] at h
      obtain ⟨e1, e2, e3, e4, e5⟩ := h
      have f1 := b64Digit_inj _ (by omega) _ (by omega) e1
      have f2 := b64Digit_inj _ (by omega) _ (by omega) e2
      have f3 := b64Digit_inj _ (by omega) _ (by omega) e3
      have f4 := b64Digit_inj _ (by omega) _ (by omega) e4
      have hrest := ih r2 (fun b hbm => hb1 b (by simp [hbm]))
        (fun b hbm => hb2 b (by simp [hbm])) e5
      simp only [List.cons.injEq]
      refine ⟨by omega, by omega, by omega, hrest⟩

/-! ### UTF-8 encoding

Model of Python `str.encode()` (UTF-8, the default), at the level of Unicode
code points: each `Char` becomes one to four bytes. -/

/-- UTF-8 byte sequence of one code point. -/
def charUtf8 (c : Char) : List Nat :=
  if c.toNat < 128 then [c.toNat]
  else if c.toNat < 2048 then [192 + c.toNat / 64, 128 + c.toNat % 64]
  else if c.toNat < 65536 then
    [224 + c.toNat / 4096, 128 + c.toNat / 64 % 64, 128 + c.toNat % 64]
  else
    [240 + c.toNat / 262144, 128 + c.toNat / 4096 % 64,
     128 + c.toNat / 64 % 64, 128 + c.toNat % 64]

/-- UTF-8 byte sequence of a character list. -/
def strUtf8 (s : List Char) : List Nat := s.flatMap charUtf8

theorem char_toNat_lt (c : Char) : c.toNat < 1114112 := by
  have h := c.valid
  simp only [Nat.isValidChar, UInt32.isValidChar] at h
  simp only [Char.toNat]
  rcases h with h | ⟨h1, h2⟩ <;> omega

theorem char_eq_of_toNat_eq {c d : Char} (h : c.toNat = d.toNat) : c = d :=
  Char.eq_of_val_eq (UInt32.toNat.inj h)

theorem charUtf8_lt_256 (c : Char) : ∀ b ∈ charUtf8 c, b < 256 := by
  have hv := char_toNat_lt c
  intro b hb
  simp only [charUtf8] at hb
  split at hb
  · simp only [List.mem_cons, List.not_mem_nil, or_false] at hb; omega
  · split at hb
    · simp only [List.mem_cons, List.not_mem_nil, or_false] at hb
      rcases hb with h | h <;> omega
    · split at hb
      · simp only [List.mem_cons, List.not_mem_nil, or_false] at hb
        rcases hb with h | h | h <;> omega
      · simp only [List.mem_cons, List.not_mem_nil, or_false] at hb
        rcases hb with h | h | h | h <;> omega

theorem charUtf8_ne_nil (c : Char) : charUtf8 c ≠ [] := by
  simp only [charUtf8]
  split
  · simp
  · split
    · simp
    · split <;> simp

theorem charUtf8_append_inj (c d : Char) (t t' : List Nat)
    (h : charUtf8 c ++ t = charUtf8 d ++ t') : c = d ∧ t = t' := by
  have hc := char_toNat_lt c
  have hd := char_toNat_lt d
  have hn : c.toNat = d.toNat := by
    have h2 := h
    simp only [charUtf8] at h2
    split at h2 <;> [skip; (split at h2 <;> [skip; (split at h2)])] <;>
      (split at h2 <;> [skip; (split at h2 <;> [skip; (split at h2)])]) <;>
      simp only [List.cons_append, List.nil_append, List.cons.injEq] at h2 <;>
      omega
  refine ⟨char_eq_of_toNat_eq hn, ?_⟩
  rw [char_eq_of_toNat_eq hn] at h
  exact List.append_cancel_left h

theorem strUtf8_cons (c : Char) (l : List Char) :
    strUtf8 (c :: l) = charUtf8 c ++ strUtf8 l := by
  simp [strUtf8]

theorem strUtf8_inj : ∀ l1 l2 : List Char, strUtf8 l1 = strUtf8 l2 → l1 = l2 := by
  intro l1
  induction l1 with
  | nil =>
    intro l2 h
    cases l2 with
    | nil => rfl
    | cons c l2 =>
      rw [strUtf8_cons] at h
      simp only [strUtf8, List.flatMap_nil] at h
      rcases hne : charUtf8 c with _ | ⟨b, bs⟩
      · exact absurd hne (charUtf8_ne_nil c)
      · rw [hne] at h; simp at h
  | cons c l1 ih =>
    intro l2 h
    cases l2 with
    | nil =>
      rw [strUtf8_cons] at h
      simp only [strUtf8, List.flatMap_nil] at h
      rcases hne : charUtf8 c with _ | ⟨b, bs⟩
      · exact absurd hne (charUtf8_ne_nil c)
      · rw [hne] at h; simp at h
    | cons d l2 =>
      rw [strUtf8_cons, strUtf8_cons] at h
      obtain ⟨hcd, ht⟩ := charUtf8_append_inj c d _ _ h
      rw [hcd, ih l2 ht]

theorem strUtf8_lt_256 (l : List Char) : ∀ b ∈ strUtf8 l, b < 256 := by
  intro b hb
  simp only [strUtf8, List.mem_flatMap] at hb
  obtain ⟨c, -, hbc⟩ := hb
  exact charUtf8_lt_256 c b hbc

/-! ### Decimal representation

Model of Python `str(n)` for a non-negative int, as produced by the
f-strings in `chunk_text`. -/

/-- One decimal digit character. -/
def decDigitChar (d : Nat) : Char := Char.ofNat (48 + d)

/-- Decimal digit characters of `n`, most significant first; `fuel` bounds the
recursion depth and `n + 1` always suffices. -/
def decReprAux : Nat → Nat → List Char
  | 0, _ => []
  | fuel + 1, n =>
      if n < 10 then [decDigitChar n]
      else decReprAux fuel (n / 10) ++ [decDigitChar (n % 10)]

/-- Decimal representation of `n`, as Python `str(n)` renders it. -/
def decRepr (n : Nat) : List Char := decReprAux (n + 1) n

theorem decDigitChar_toNat : ∀ d, d < 10 → (decDigitChar d).toNat = 48 + d := by
  decide

/-- Value of a digit-character list, inverse of `decReprAux`. -/
def decVal (l : List Char) : Nat := l.foldl (fun acc c => acc * 10 + (c.toNat - 48)) 0

theorem decVal_append_digit (l : List Char) (c : Char) :
    decVal (l ++ [c]) = decVal l * 10 + (c.toNat - 48) := by
  simp [decVal, List.foldl_append]

theorem decVal_decReprAux : ∀ fuel n, n < fuel → decVal (decReprAux fuel n) = n := by
  intro fuel
  induction fuel with
  | zero => intro n h; omega
  | succ fuel ih =>
    intro n h
    simp only [decReprAux]
    split
    · simp only [decVal, List.foldl_cons, List.foldl_nil]
      rw [decDigitChar_toNat n (by omega)]
      omega
    · rw [decVal_append_digit]
      rw [ih (n / 10) (by omega)]
      rw [decDigitChar_toNat (n % 10) (by omega)]
      omega

theorem decRepr_inj {m n : Nat} (h : decRepr m = decRepr n) : m = n := by
  have hm := decVal_decReprAux (m + 1) m (by omega)
  have hn := decVal_decReprAux (n + 1) n (by omega)
  simp only [decRepr] at h
  rw [h, hn] at hm
  exact hm.symm

theorem decReprAux_digits :
    ∀ fuel n c, c ∈ decReprAux fuel n → ∃ d, d < 10 ∧ c = decDigitChar d := by
  intro fuel
  induction fuel with
  | zero => intro n c hc; simp [decReprAux] at hc
  | succ fuel ih =>
    intro n c hc
    simp only [decReprAux] at hc
    split at hc
    · simp only [List.mem_cons, List.not_mem_nil, or_false] at hc
      exact ⟨n, by omega, hc⟩
    · simp only [List.mem_append, List.mem_cons, List.not_mem_nil, or_false] at hc
      rcases hc with hc | hc
      · exact ih (n / 10) c hc
      · exact ⟨n % 10, by omega, hc⟩

theorem decRepr_no_hash : ∀ n c, c ∈ decRepr n → c ≠ '#' ∧ c ≠ '_' := by
  intro n c hc
  obtain ⟨d, hd, hcd⟩ := decReprAux_digits (n + 1) n c hc
  subst hcd
  have hall : ∀ e, e < 10 → decDigitChar e ≠ '#' ∧ decDigitChar e ≠ '_' := by decide
  exact hall d hd

/-! ### Chunk identifiers

`DocumentIndexer.chunk_text` builds, for each window, the string
`f"{document_id}#{page_number}_{start}"` and base64-url-encodes its UTF-8
bytes (src/indexing/index_documents.py, lines 193-197). -/

/-- Characters of `f"{document_id}#{page_number}_{start}"`. -/
def keyChars (doc : List Char) (page start : Nat) : List Char :=
  doc ++ '#' :: (decRepr page ++ '_' :: decRepr start)

/-- Model of the `chunk_id` computation:
`base64.urlsafe_b64encode(f"{document_id}#{page_number}_{start}".encode())`. -/
def chunkId (doc : String) (page start : Nat) : String :=
  String.mk (b64encode (strUtf8 (keyChars doc.data page start)))

theorem append_sep_inj (c : Char) :
    ∀ (a a' b b' : List Char), a ++ c :: b = a' ++ c :: b' →
      c ∉ b → c ∉ b' → a = a' ∧ b = b' := by
  intro a
  induction a with
  | nil =>
    intro a' b b' h hb hb'
    cases a' with
    | nil => simp only [List.nil_append, List.cons.injEq, true_and] at h; exact ⟨rfl, h⟩
    | cons x a2 =>
      simp only [List.nil_append, List.cons_append, List.cons.injEq] at h
      obtain ⟨hx, hrest⟩ := h
      exfalso
      apply hb
      rw [hrest]
      simp
  | cons x a2 ih =>
    intro a' b b' h hb hb'
    cases a' with
    | nil =>
      simp only [List.cons_append, List.nil_append, List.cons.injEq] at h
      obtain ⟨hx, hrest⟩ := h
      exfalso
      apply hb'
      rw [← hrest]
      simp
    | cons y a2' =>
      simp only [List.cons_append, List.cons.injEq] at h
      obtain ⟨hxy, hrest⟩ := h
      obtain ⟨ha, hbb⟩ := ih a2' b b' hrest hb hb'
      exact ⟨by rw [hxy, ha], hbb⟩

theorem keyChars_inj {doc doc' : List Char} {p s p' s' : Nat}
    (h : keyChars doc p s = keyChars doc' p' s') : doc = doc' ∧ p = p' ∧ s = s' := by
  have hnh : ('#' : Char) ∉ decRepr p ++ '_' :: decRepr s := by
    simp only [List.mem_append, List.mem_cons, not_or]
    refine ⟨fun hm => (decRepr_no_hash p _ hm).1 rfl, by decide, fun hm => (decRepr_no_hash s _ hm).1 rfl⟩
  have hnh' : ('#' : Char) ∉ decRepr p' ++ '_' :: decRepr s' := by
    simp only [List.mem_append, List.mem_cons, not_or]
    refine ⟨fun hm => (decRepr_no_hash p' _ hm).1 rfl, by decide, fun hm => (decRepr_no_hash s' _ hm).1 rfl⟩
  obtain ⟨hdoc, hrest⟩ := append_sep_inj '#' doc doc' _ _ h hnh hnh'
  have hnu : ('_' : Char) ∉ decRepr s := fun hm => (decRepr_no_hash s _ hm).2 rfl
  have hnu' : ('_' : Char) ∉ decRepr s' := fun hm => (decRepr_no_hash s' _ hm).2 rfl
  obtain ⟨hp, hs⟩ := append_sep_inj '_' (decRepr p) (decRepr p') _ _ hrest hnu hnu'
  exact ⟨hdoc, decRepr_inj hp, decRepr_inj hs⟩

theorem chunkId_inj {doc doc' : String} {p s p' s' : Nat}
    (h : chunkId doc p s = chunkId doc' p' s') : doc = doc' ∧ p = p' ∧ s = s' := by
  have h' : b64encode (strUtf8 (keyChars doc.data p s))
      = b64encode (strUtf8 (keyChars doc'.data p' s')) := congrArg String.data h
  have hb := b64encode_inj _ _ (strUtf8_lt_256 _) (strUtf8_lt_256 _) h'
  have hk := strUtf8_inj _ _ hb
  obtain ⟨hdoc, hp, hs⟩ := keyChars_inj hk
  exact ⟨String.ext hdoc, hp, hs⟩

theorem chunkId_urlSafe (doc : String) (p s : Nat) :
    ∀ c ∈ (chunkId doc p s).data, isB64UrlChar c = true := by
  intro c hc
  simp only [chunkId] at hc
  exact b64encode_urlSafe _ (strUtf8_lt_256 _) c hc

/-! ### The chunking loop

Model of `DocumentIndexer.chunk_text` (src/indexing/index_documents.py,
lines 183-213).  Page text is a `List Char`; the Python slice
`text[start:end]` with `end = min(start + chunk_size, len(text))` is
`(text.drop start).take chunk_size`.  The `while start < len(text)` loop is
modelled with explicit fuel (`none` = the loop has not finished within the
given number of iterations); the offset update is
`start += chunk_size - chunk_overlap`, which for `chunk_overlap ≤ chunk_size`
coincides with truncated subtraction on `Nat`. -/

/-- One chunk record as `chunk_text` builds it. -/
structure ChunkRec where
  chunk_id : String
  content : List Char
  document_id : String
  page_number : Nat
  metadata_storage_name : String
  state : Option String
deriving DecidableEq

/-- Chunk record for the window starting at `start`. -/
def mkChunk (docId : String) (page start : Nat) (content : List Char) : ChunkRec :=
  { chunk_id := chunkId docId page start
    content := content
    document_id := docId
    page_number := page
    metadata_storage_name := docId
    state := none }

/-- Whitespace characters stripped by Python `str.strip()` (ASCII core; the
hypothesis and conclusion of every theorem below use this same predicate, so
the exact whitespace set is immaterial to them). -/
def pyIsSpace (c : Char) : Bool :=
  c = ' ' || c = '\t' || c = '\n' || c = '\r' || c = '\x0b' || c = '\x0c'

/-- Python `chunk_text.strip()` truthiness: some non-whitespace character. -/
def stripNonempty (l : List Char) : Bool := l.any (fun c => !pyIsSpace c)

/-- The `while start < len(text)` loop of `chunk_text`, for one page. -/
def chunkLoop (size overlap : Nat) (docId : String) (page : Nat)
    (text : List Char) : Nat → Nat → Option (List ChunkRec)
  | 0, _ => none
  | fuel + 1, start =>
      if start < text.length then
        let ck := (text.drop start).take size
        match chunkLoop size overlap docId page text fuel (start + (size - overlap)) with
        | none => none
        | some rest =>
            some (if stripNonempty ck then mkChunk docId page start ck :: rest else rest)
      else
        some []

/-- `chunk_text` on one page: the loop from `start = 0`.  The fuel
`text.length + 1` is enough for every terminating run (when
`chunk_overlap < chunk_size` the start offset advances by at least one per
iteration); `none` means the Python loop does not terminate. -/
def chunkPage (size overlap : Nat) (docId : String) (page : Nat)
    (text : List Char) : Option (List ChunkRec) :=
  chunkLoop size overlap docId page text (text.length + 1) 0

/-- `chunk_text` over the page list, concatenating per-page chunks in order. -/
def chunkText (size overlap : Nat) (docId : String) :
    List (Nat × List Char) → Option (List ChunkRec)
  | [] => some []
  | (page, text) :: rest =>
      match chunkPage size overlap docId page text, chunkText size overlap docId rest with
      | some a, some b => some (a ++ b)
      | _, _ => none

theorem chunkLoop_exit (size overlap : Nat) (docId : String) (page : Nat)
    (text : List Char) (fuel start : Nat) (h : text.length ≤ start) (hf : 0 < fuel) :
    chunkLoop size overlap docId page text fuel start = some [] := by
  cases fuel with
  | zero => omega
  | succ fuel => simp only [chunkLoop]; rw [if_neg (by omega)]

theorem chunkLoop_count (size overlap : Nat) (docId : String) (page : Nat)
    (text : List Char) (hstep : 0 < size - overlap) :
    ∀ fuel start, start < text.length → text.length - start + 1 ≤ fuel →
      (∀ k, start + k * (size - overlap) < text.length →
        stripNonempty ((text.drop (start + k * (size - overlap))).take size) = true) →
      ∃ l, chunkLoop size overlap docId page text fuel start = some l ∧
        l.length = (text.length - start + (size - overlap) - 1) / (size - overlap) := by
  intro fuel
  induction fuel with
  | zero => intro start h hf _; omega
  | succ fuel ih =>
    intro start hstart hf hws
    have hkeep : stripNonempty ((text.drop start).take size) = true := by
      have h0 := hws 0 (by simpa using hstart)
      simpa using h0
    by_cases hnext : start + (size - overlap) < text.length
    · have hws' : ∀ k, (start + (size - overlap)) + k * (size - overlap) < text.length →
          stripNonempty ((text.drop ((start + (size - overlap)) + k * (size - overlap))).take size) = true := by
        intro k hk
        have e : start + (size - overlap) + k * (size - overlap)
            = start + (k + 1) * (size - overlap) := by ring
        rw [e] at hk ⊢
        exact hws (k + 1) hk
      obtain ⟨l', hl', hlen'⟩ := ih (start + (size - overlap)) hnext (by omega) hws'
      refine ⟨mkChunk docId page start ((text.drop start).take size) :: l', ?_, ?_⟩
      · simp only [chunkLoop]
        rw [if_pos hstart, hl', hkeep]
        simp
      · have e1 : text.length - (start + (size - overlap)) + (size - overlap) - 1
            = text.length - start - 1 := by omega
        have e2 : text.length - start + (size - overlap) - 1
            = (text.length - start - 1) + (size - overlap) := by omega
        rw [e1] at hlen'
        rw [e2, Nat.add_div_right _ hstep]
        simp only [List.length_cons, hlen']
    · have hrec : chunkLoop size overlap docId page text fuel (start + (size - overlap)) = some [] :=
        chunkLoop_exit size overlap docId page text fuel _ (by omega) (by omega)
      refine ⟨[mkChunk docId page start ((text.drop start).take size)], ?_, ?_⟩
      · simp only [chunkLoop]
        rw [if_pos hstart, hrec, hkeep]
        simp
      · have := Nat.div_eq_of_lt_le (m := text.length - start + (size - overlap) - 1)
          (n := size - overlap) (k := 1) (by omega) (by omega)
        simpa using this.symm

/-- Model of the chunk-size configuration handling in `DocumentIndexer.__init__`
(src/indexing/index_documents.py, lines 34-62): the constructor stores
`chunk_size` and `chunk_overlap` unchecked, so no `ValueError` (modelled by
`Except.error`) is ever raised for these parameters. -/
def documentIndexerInit (size overlap : Nat) : Except String (Nat × Nat) :=
  Except.ok (size, overlap)

/-- C2 (counterexample): with `chunk_size = 5`, `chunk_overlap = 3` and the
4-character page "abcd" (no whitespace at all), `chunk_text` produces 2
chunks — the windows [0:4] and [2:4] — while the claimed formula
ceil((L − overlap) / (size − overlap)) gives 1, and the claimed boundary case
(L = 4 ≤ 5 = chunk_size) also demands exactly 1 chunk. -/
theorem chunk_count_claim_counterexample :
    (chunkPage 5 3 "doc" 1 "abcd".data).map List.length = some 2 ∧
    ("abcd".data.length - 3 + (5 - 3) - 1) / (5 - 3) = 1 ∧
    "abcd".data.length ≤ 5 := by
  refine ⟨by decide, by decide, by decide⟩

/-- C2 (amended): for `0 < chunk_overlap < chunk_size` and a non-empty page
text none of whose produced windows is whitespace-only, `chunk_text` produces
exactly ceil(L / (chunk_size − chunk_overlap)) non-empty chunks; in
particular exactly 1 chunk when L ≤ chunk_size − chunk_overlap. -/
theorem chunk_count_amended (size overlap : Nat) (docId : String) (page : Nat)
    (text : List Char) (_hov : 0 < overlap) (hlt : overlap < size) (hne : text ≠ [])
    (hws : ∀ k, k * (size - overlap) < text.length →
      stripNonempty ((text.drop (k * (size - overlap))).take size) = true) :
    ∃ l, chunkPage size overlap docId page text = some l ∧
      l.length = (text.length + (size - overlap) - 1) / (size - overlap) ∧
      (text.length ≤ size - overlap → l.length = 1) := by
  have hpos : 0 < text.length := List.length_pos.mpr hne
  have hws0 : ∀ k, 0 + k * (size - overlap) < text.length →
      stripNonempty ((text.drop (0 + k * (size - overlap))).take size) = true := by
    intro k hk
    rw [Nat.zero_add] at hk ⊢
    exact hws k hk
  obtain ⟨l, hl, hlen⟩ := chunkLoop_count size overlap docId page text (by omega)
    (text.length + 1) 0 hpos (by omega) hws0
  rw [Nat.sub_zero] at hlen
  refine ⟨l, hl, hlen, ?_⟩
  intro hsmall
  rw [hlen]
  exact Nat.div_eq_of_lt_le (by omega) (by omega)

/-- C2 witness: `chunk_size = 5`, `chunk_overlap = 2`, page "abcdefg" of
length 7 — exactly ceil(7 / 3) = 3 chunks. -/
theorem chunk_count_amended_witness :
    ∃ l, chunkPage 5 2 "doc" 1 "abcdefg".data = some l ∧
      l.length = ("abcdefg".data.length + (5 - 2) - 1) / (5 - 2) ∧
      ("abcdefg".data.length ≤ 5 - 2 → l.length = 1) :=
  chunk_count_amended 5 2 "doc" 1 "abcdefg".data (by decide) (by decide) (by decide)
    (fun k hk => by
      have hL : ("abcdefg".data.length) = 7 := by decide
      rw [hL] at hk
      have hk2 : k ≤ 2 := by omega
      interval_cases k <;> decide)

/-- C5 (counterexample): the configuration `chunk_size = 5`,
`chunk_overlap = 5` is accepted by the constructor without any error, and the
chunking loop then runs on the two-character page "ab" without finishing
within 40 iterations (the start offset never advances). -/
theorem chunker_config_counterexample :
    documentIndexerInit 5 5 = Except.ok (5, 5) ∧
    chunkLoop 5 5 "doc" 1 "ab".data 40 0 = none :=
  ⟨rfl, by decide⟩

/-- C5 (amended): `DocumentIndexer.__init__` performs no validation of
`chunk_overlap` against `chunk_size` — every configuration is accepted — and
with `chunk_overlap = chunk_size` the chunking loop makes no progress on a
non-empty page: it never terminates, for any iteration bound. -/
theorem chunker_config_amended :
    (∀ size overlap : Nat, documentIndexerInit size overlap = Except.ok (size, overlap)) ∧
    (∀ (docId : String) (page : Nat) (text : List Char) (size fuel : Nat),
      text ≠ [] → chunkLoop size size docId page text fuel 0 = none) := by
  refine ⟨fun _ _ => rfl, ?_⟩
  intro docId page text size fuel hne
  induction fuel with
  | zero => rfl
  | succ fuel ih =>
    simp only [chunkLoop]
    rw [if_pos (List.length_pos.mpr hne)]
    simp only [Nat.sub_self, Nat.add_zero]
    rw [ih]

/-- C5 witness: the non-progress branch at a concrete input. -/
theorem chunker_config_amended_witness :
    chunkLoop 5 5 "doc" 1 "ab".data 3 0 = none :=
  chunker_config_amended.2 "doc" 1 "ab".data 5 3 (by decide)

/-- C6: `chunk_id` is the base64-url encoding of the UTF-8 bytes of
`document_id#page_number_start`; it is collision-free — distinct
(document_id, page_number, start_offset) triples always yield distinct ids —
and every character of the encoding is from the url-safe base64 alphabet
(plus `'='` padding).  Determinism is definitional here: `chunkId` is a pure
function of exactly this triple, so re-chunking the same page reproduces the
same ids. -/
theorem chunk_id_collision_free_and_url_safe :
    (∀ (doc doc' : String) (p s p' s' : Nat),
        chunkId doc p s = chunkId doc' p' s' → doc = doc' ∧ p = p' ∧ s = s') ∧
    (∀ (doc : String) (p s : Nat), ∀ c ∈ (chunkId doc p s).data, isB64UrlChar c = true) :=
  ⟨fun _ _ _ _ _ _ h => chunkId_inj h, fun doc p s => chunkId_urlSafe doc p s⟩

/-- C6 witness: both parts applied at a concrete triple and character. -/
theorem chunk_id_collision_free_and_url_safe_witness :
    ("a" = "a" ∧ 1 = 1 ∧ 2 = 2) ∧ isB64UrlChar 'Y' = true :=
  ⟨chunk_id_collision_free_and_url_safe.1 "a" "a" 1 2 1 2 rfl,
   chunk_id_collision_free_and_url_safe.2 "a" 1 2 'Y' (by decide)⟩

/-! ### The polling state machine

Models of `IndexerRunner.wait_for_completion` (src/indexing/
trigger_indexer.py, lines 279-365) and of
`IndexerPipelineRunner._monitor_execution` (src/indexing/
run_indexer_pipeline.py, lines 141-223).

The remote service is a script: a function from the poll index to the
status snapshot returned by that poll (`none` models a failed
`get_status` call for the first function, and an exception inside the
`try` block for the second).  The caller-supplied deadline is the number
of polls that fit inside the timeout, so one unit of fuel is one loop
iteration. -/

/-- Latest execution result carried by an indexer status snapshot. -/
structure ExecResult where
  status : String
  itemsProcessed : Nat
  itemsFailed : Nat
  errors : List String
  warnings : List String
deriving DecidableEq

/-- One `get_indexer_status` snapshot. -/
structure IndexerSnap where
  indexerStatus : String
  lastResult : Option ExecResult
deriving DecidableEq

/-- The polling loop of `IndexerRunner.wait_for_completion`: `k` is the poll
index, the third argument is `last_status`.  On a `success` execution result
it returns `(True, status)` with no look at `items_failed`; on
`persistentFailure` it returns `(False, status)`; on a failed `get_status`
it returns `(False, None)`; every other result — including
`transientFailure` — keeps polling; exhausted fuel is the timeout return
`(False, last_status)`. -/
def waitGo (script : Nat → Option IndexerSnap) :
    Nat → Nat → Option IndexerSnap → Bool × Option IndexerSnap
  | 0, _, last => (false, last)
  | fuel + 1, k, _ =>
      match script k with
      | none => (false, none)
      | some st =>
          match st.lastResult with
          | some res =>
              if res.status = "success" then (true, some st)
              else if res.status = "persistentFailure" then (false, some st)
              else waitGo script fuel (k + 1) (some st)
          | none => waitGo script fuel (k + 1) (some st)

/-- `IndexerRunner.wait_for_completion` with a deadline of `maxPolls` polls. -/
def waitForCompletion (script : Nat → Option IndexerSnap) (maxPolls : Nat) :
    Bool × Option IndexerSnap :=
  waitGo script maxPolls 0 none

/-- The polling loop of `IndexerPipelineRunner._monitor_execution`: on
`success` it returns `failed_item_count == 0`; on `transientFailure` or
`persistentFailure` it returns `False` at once; an exception while checking
status (script value `none`) is logged and the loop continues; exhausted
fuel is the timeout return `False`. -/
def monitorGo (script : Nat → Option IndexerSnap) : Nat → Nat → Bool
  | 0, _ => false
  | fuel + 1, k =>
      match script k with
      | none => monitorGo script fuel (k + 1)
      | some st =>
          match st.lastResult with
          | some res =>
              if res.status = "success" then res.itemsFailed == 0
              else if res.status = "transientFailure" ∨ res.status = "persistentFailure" then
                false
              else monitorGo script fuel (k + 1)
          | none => monitorGo script fuel (k + 1)

/-- `IndexerPipelineRunner._monitor_execution` with a deadline of
`maxChecks` status checks. -/
def monitorExecution (script : Nat → Option IndexerSnap) (maxChecks : Nat) : Bool :=
  monitorGo script maxChecks 0

/-- A poll result on which `wait_for_completion` keeps looping: a snapshot
whose last result is absent or neither `success` nor `persistentFailure`. -/
def waitNonDecisive (o : Option IndexerSnap) : Prop :=
  ∃ st, o = some st ∧
    (st.lastResult = none ∨
      ∃ r, st.lastResult = some r ∧ r.status ≠ "success" ∧ r.status ≠ "persistentFailure")

/-- A poll result on which `_monitor_execution` keeps looping: a failed
check, or a snapshot whose last result is absent or not terminal for it. -/
def monNonDecisive (o : Option IndexerSnap) : Prop :=
  o = none ∨
    ∃ st, o = some st ∧
      (st.lastResult = none ∨
        ∃ r, st.lastResult = some r ∧ r.status ≠ "success" ∧
          r.status ≠ "persistentFailure" ∧ r.status ≠ "transientFailure")

theorem waitGo_skip (script : Nat → Option IndexerSnap) (fuel k : Nat)
    (last : Option IndexerSnap) (st : IndexerSnap)
    (hs : script k = some st) (hnd : waitNonDecisive (script k)) :
    waitGo script (fuel + 1) k last = waitGo script fuel (k + 1) (some st) := by
  obtain ⟨st', hst', hnd'⟩ := hnd
  rw [hs] at hst'
  obtain rfl : st = st' := by injection hst'
  simp only [waitGo, hs]
  rcases hnd' with hnone | ⟨r, hr, hns, hnp⟩
  · rw [hnone]
  · rw [hr]
    simp only [if_neg hns, if_neg hnp]

theorem monitorGo_skip (script : Nat → Option IndexerSnap) (fuel k : Nat)
    (hnd : monNonDecisive (script k)) :
    monitorGo script (fuel + 1) k = monitorGo script fuel (k + 1) := by
  rcases hnd with hnone | ⟨st, hst, hnd'⟩
  · simp only [monitorGo, hnone]
  · simp only [monitorGo, hst]
    rcases hnd' with hnone' | ⟨r, hr, hns, hnp, hnt⟩
    · rw [hnone']
    · rw [hr]
      simp only [if_neg hns]
      rw [if_neg (by simp [hnt, hnp])]

theorem waitGo_reach (script : Nat → Option IndexerSnap) :
    ∀ (j : Nat) (k fuel : Nat) (last : Option IndexerSnap) (st : IndexerSnap) (res : ExecResult),
      (∀ i, i < j → waitNonDecisive (script (k + i))) →
      script (k + j) = some st → st.lastResult = some res →
      (res.status = "success" ∨ res.status = "persistentFailure") →
      waitGo script (j + fuel + 1) k last = (decide (res.status = "success"), some st) := by
  intro j
  induction j with
  | zero =>
    intro k fuel last st res _ hs hres hterm
    rw [Nat.add_zero] at hs
    simp only [Nat.zero_add, waitGo, hs, hres]
    rcases hterm with h | h
    · rw [if_pos h, decide_eq_true h]
    · have hne : res.status ≠ "success" := by rw [h]; decide
      rw [if_neg hne, if_pos h, decide_eq_false hne]
  | succ j ih =>
    intro k fuel last st res hnd hs hres hterm
    have hnd0 := hnd 0 (by omega)
    rw [Nat.add_zero] at hnd0
    obtain ⟨st0, hst0, -⟩ := hnd0
    have heq : j + 1 + fuel + 1 = (j + fuel + 1) + 1 := by omega
    rw [heq, waitGo_skip script (j + fuel + 1) k last st0 hst0 (by rw [hst0]; exact ⟨st0, rfl, by
      have h2 := hnd 0 (by omega)
      rw [Nat.add_zero, hst0] at h2
      obtain ⟨st', hst', hnd'⟩ := h2
      obtain rfl : st0 = st' := by injection hst'
      exact hnd'⟩)]
    have hshift : ∀ i, i < j → waitNonDecisive (script (k + 1 + i)) := by
      intro i hi
      have e : k + 1 + i = k + (i + 1) := by omega
      rw [e]
      exact hnd (i + 1) (by omega)
    have hs' : script (k + 1 + j) = some st := by
      have e : k + 1 + j = k + (j + 1) := by omega
      rw [e]; exact hs
    exact ih (k + 1) fuel (some st0) st res hshift hs' hres hterm

theorem monitorGo_reach (script : Nat → Option IndexerSnap) :
    ∀ (j : Nat) (k fuel : Nat) (st : IndexerSnap) (res : ExecResult),
      (∀ i, i < j → monNonDecisive (script (k + i))) →
      script (k + j) = some st → st.lastResult = some res →
      res.status = "success" →
      monitorGo script (j + fuel + 1) k = (res.itemsFailed == 0) := by
  intro j
  induction j with
  | zero =>
    intro k fuel st res _ hs hres hsucc
    rw [Nat.add_zero] at hs
    simp only [Nat.zero_add, monitorGo, hs, hres, if_pos hsucc]
  | succ j ih =>
    intro k fuel st res hnd hs hres hsucc
    have heq : j + 1 + fuel + 1 = (j + fuel + 1) + 1 := by omega
    rw [heq, monitorGo_skip script (j + fuel + 1) k (by
      have h2 := hnd 0 (by omega)
      rw [Nat.add_zero] at h2
      exact h2)]
    have hshift : ∀ i, i < j → monNonDecisive (script (k + 1 + i)) := by
      intro i hi
      have e : k + 1 + i = k + (i + 1) := by omega
      rw [e]
      exact hnd (i + 1) (by omega)
    have hs' : script (k + 1 + j) = some st := by
      have e : k + 1 + j = k + (j + 1) := by omega
      rw [e]; exact hs
    exact ih (k + 1) fuel st res hshift hs' hres hsucc

/-- A `success` execution result with 3 failed items. -/
def successRes3 : ExecResult :=
  { status := "success", itemsProcessed := 10, itemsFailed := 3,
    errors := ["doc error"], warnings := [] }

/-- A `success` execution result with 0 failed items. -/
def successRes0 : ExecResult :=
  { status := "success", itemsProcessed := 5, itemsFailed := 0,
    errors := [], warnings := [] }

/-- A `transientFailure` execution result. -/
def transientRes : ExecResult :=
  { status := "transientFailure", itemsProcessed := 0, itemsFailed := 0,
    errors := [], warnings := [] }

/-- A `persistentFailure` execution result. -/
def persistentRes : ExecResult :=
  { status := "persistentFailure", itemsProcessed := 0, itemsFailed := 2,
    errors := ["fatal"], warnings := [] }

/-- An `inProgress` execution result. -/
def runningRes : ExecResult :=
  { status := "inProgress", itemsProcessed := 1, itemsFailed := 0,
    errors := [], warnings := [] }

/-- A concrete run ending in remote status `success` with 3 failed items. -/
def successSnap3 : IndexerSnap :=
  { indexerStatus := "running", lastResult := some successRes3 }

/-- A concrete run ending in remote status `success` with 0 failed items. -/
def successSnap0 : IndexerSnap :=
  { indexerStatus := "running", lastResult := some successRes0 }

/-- A transient-failure snapshot. -/
def transientSnap : IndexerSnap :=
  { indexerStatus := "running", lastResult := some transientRes }

/-- A persistent-failure snapshot. -/
def persistentSnap : IndexerSnap :=
  { indexerStatus := "running", lastResult := some persistentRes }

/-- A still-running snapshot (non-terminal). -/
def runningSnap : IndexerSnap :=
  { indexerStatus := "running", lastResult := some runningRes }

/-- C1 (counterexample): on a run whose remote terminal status is `success`
with `items_failed = 3`, `IndexerRunner.wait_for_completion` reports overall
success `(True, status)` — the claim demands a failed-run report whenever
`items_failed > 0`. -/
theorem wait_success_items_failed_counterexample :
    waitForCompletion (fun _ => some successSnap3) 10 = (true, some successSnap3) ∧
    successSnap3.lastResult = some successRes3 ∧
    successRes3.status = "success" ∧ successRes3.itemsFailed = 3 ∧ (3 : Nat) ≠ 0 := by
  refine ⟨by decide, by decide, by decide, by decide, by decide⟩

/-- C1 (amended): for every run reaching remote status `success`,
`IndexerRunner.wait_for_completion` returns `(True, status)` regardless of
`items_failed`; the `items_failed == 0` requirement is applied only by
`IndexerPipelineRunner._monitor_execution`, which on such a run returns
`failed_item_count == 0`. -/
theorem wait_success_items_failed_amended
    (script : Nat → Option IndexerSnap) (j fuel : Nat) (st : IndexerSnap) (res : ExecResult)
    (hnd : ∀ i, i < j → waitNonDecisive (script i))
    (hs : script j = some st) (hres : st.lastResult = some res)
    (hsucc : res.status = "success") :
    waitForCompletion script (j + fuel + 1) = (true, some st) ∧
    ((∀ i, i < j → monNonDecisive (script i)) →
      monitorExecution script (j + fuel + 1) = (res.itemsFailed == 0)) := by
  constructor
  · have h := waitGo_reach script j 0 fuel none st res
      (by intro i hi; rw [Nat.zero_add]; exact hnd i hi)
      (by rw [Nat.zero_add]; exact hs) hres (Or.inl hsucc)
    rw [waitForCompletion, h, decide_eq_true hsucc]
  · intro hmnd
    exact monitorGo_reach script j 0 fuel st res
      (by intro i hi; rw [Nat.zero_add]; exact hmnd i hi)
      (by rw [Nat.zero_add]; exact hs) hres hsucc

/-- C1 witness: the amended statement at the success-with-3-failures run. -/
theorem wait_success_items_failed_amended_witness :
    waitForCompletion (fun _ => some successSnap3) 1 = (true, some successSnap3) ∧
    ((∀ i, i < 0 → monNonDecisive ((fun _ => some successSnap3) i)) →
      monitorExecution (fun _ => some successSnap3) 1 = (successRes3.itemsFailed == 0)) :=
  wait_success_items_failed_amended (fun _ => some successSnap3) 0 0 successSnap3
    successRes3 (fun i hi => absurd hi (Nat.not_lt_zero i)) rfl rfl rfl

/-- C3 (counterexample): a run that reports `transientFailure` on the first
poll and a clean `success` from the second poll on.
`IndexerPipelineRunner._monitor_execution` exits immediately with `False` on
the transient failure — while the same scripted service drives
`IndexerRunner.wait_for_completion`, which does keep polling, to
`(True, success)` well before the deadline. -/
theorem transient_failure_terminal_counterexample :
    monitorExecution (fun k => if k = 0 then some transientSnap else some successSnap0) 10
      = false ∧
    waitForCompletion (fun k => if k = 0 then some transientSnap else some successSnap0) 10
      = (true, some successSnap0) := by
  refine ⟨by decide, by decide⟩

/-- C3 (amended): `IndexerRunner.wait_for_completion` treats
`transientFailure` as non-terminal — observing it, the loop simply polls
again — but `IndexerPipelineRunner._monitor_execution` treats it as a
terminal failure and returns `False` at once. -/
theorem transient_failure_amended :
    (∀ (script : Nat → Option IndexerSnap) (fuel k : Nat) (last : Option IndexerSnap)
        (st : IndexerSnap) (res : ExecResult),
      script k = some st → st.lastResult = some res → res.status = "transientFailure" →
      waitGo script (fuel + 1) k last = waitGo script fuel (k + 1) (some st)) ∧
    (∀ (script : Nat → Option IndexerSnap) (fuel : Nat) (st : IndexerSnap) (res : ExecResult),
      script 0 = some st → st.lastResult = some res → res.status = "transientFailure" →
      monitorExecution script (fuel + 1) = false) := by
  constructor
  · intro script fuel k last st res hs hres htr
    exact waitGo_skip script fuel k last st hs
      ⟨st, hs, Or.inr ⟨res, hres, by rw [htr]; decide, by rw [htr]; decide⟩⟩
  · intro script fuel st res hs hres htr
    simp only [monitorExecution, monitorGo, hs, hres]
    rw [if_neg (by rw [htr]; decide), if_pos (Or.inl htr)]

/-- C3 witness: both parts at the concrete transient-failure snapshot. -/
theorem transient_failure_amended_witness :
    waitGo (fun _ => some transientSnap) 3 0 none
      = waitGo (fun _ => some transientSnap) 2 1 (some transientSnap) ∧
    monitorExecution (fun _ => some transientSnap) 3 = false :=
  ⟨transient_failure_amended.1 (fun _ => some transientSnap) 2 0 none transientSnap
      transientRes rfl rfl rfl,
   transient_failure_amended.2 (fun _ => some transientSnap) 2 transientSnap
      transientRes rfl rfl rfl⟩

/-- A returned status option that does not carry a `persistentFailure` last
result. -/
def snapNotPF (o : Option IndexerSnap) : Prop :=
  ∀ st, o = some st → ∀ r, st.lastResult = some r → r.status ≠ "persistentFailure"

theorem waitGo_never_terminal (script : Nat → Option IndexerSnap)
    (hall : ∀ k, waitNonDecisive (script k)) :
    ∀ fuel k last, snapNotPF last →
      (waitGo script fuel k last).1 = false ∧ snapNotPF (waitGo script fuel k last).2 := by
  intro fuel
  induction fuel with
  | zero => intro k last hlast; exact ⟨rfl, hlast⟩
  | succ fuel ih =>
    intro k last hlast
    obtain ⟨st, hst, hnd⟩ := hall k
    have hnotpf : snapNotPF (some st) := by
      intro st' hst' r hr
      obtain rfl : st = st' := by injection hst'
      rcases hnd with hnone | ⟨r', hr', -, hnp⟩
      · rw [hnone] at hr; exact absurd hr (by simp)
      · rw [hr'] at hr
        obtain rfl : r' = r := by injection hr
        exact hnp
    rcases hnd with hnone | ⟨r, hr, hns, hnp⟩
    · simp only [waitGo, hst, hnone]
      exact ih (k + 1) (some st) hnotpf
    · simp only [waitGo, hst, hr]
      rw [if_neg hns, if_neg hnp]
      exact ih (k + 1) (some st) hnotpf

/-- C4 (counterexample): for `IndexerPipelineRunner._monitor_execution`, the
timed-out outcome is the bare value `False`, identical to the outcome of a
run that ends in `persistentFailure` — the two are not distinguishable. -/
theorem timeout_outcome_counterexample :
    monitorExecution (fun _ => some runningSnap) 5
      = monitorExecution (fun _ => some persistentSnap) 5 ∧
    monitorExecution (fun _ => some runningSnap) 5 = false := by
  refine ⟨by decide, by decide⟩

/-- C4 (amended): `IndexerRunner.wait_for_completion` does return a timed-out
outcome distinguishable from its `persistentFailure` outcome: when the job
never reaches a terminal state the returned pair is `(False, last)` with no
`persistentFailure` last result in `last`, while a `persistentFailure` run
returns `(False, status)` whose snapshot carries that status — so the two
returns are never equal.  `IndexerPipelineRunner._monitor_execution` returns
an undistinguished `False` in both situations. -/
theorem timeout_outcome_amended
    (s1 s2 : Nat → Option IndexerSnap) (n1 j fuel : Nat)
    (st : IndexerSnap) (res : ExecResult)
    (h1 : ∀ k, waitNonDecisive (s1 k))
    (h2 : ∀ i, i < j → waitNonDecisive (s2 i))
    (hs : s2 j = some st) (hres : st.lastResult = some res)
    (hpf : res.status = "persistentFailure") :
    waitForCompletion s1 n1 ≠ waitForCompletion s2 (j + fuel + 1) := by
  have hreach := waitGo_reach s2 j 0 fuel none st res
    (by intro i hi; rw [Nat.zero_add]; exact h2 i hi)
    (by rw [Nat.zero_add]; exact hs) hres (Or.inr hpf)
  have hne : res.status ≠ "success" := by rw [hpf]; decide
  rw [decide_eq_false hne] at hreach
  have hnever := waitGo_never_terminal s1 h1 n1 0 none (by intro st' h; simp at h)
  intro heq
  unfold waitForCompletion at heq
  rw [heq, hreach] at hnever
  exact hnever.2 st rfl res hres hpf

/-- C4 witness: a job stuck `inProgress` against a job that fails
persistently — the two `wait_for_completion` outcomes differ. -/
theorem timeout_outcome_amended_witness :
    waitForCompletion (fun _ => some runningSnap) 2
      ≠ waitForCompletion (fun _ => some persistentSnap) 1 :=
  timeout_outcome_amended (fun _ => some runningSnap) (fun _ => some persistentSnap)
    2 0 0 persistentSnap persistentRes
    (fun _ => ⟨runningSnap, rfl, Or.inr ⟨runningRes, rfl, by decide, by decide⟩⟩)
    (fun i hi => absurd hi (Nat.not_lt_zero i)) rfl rfl rfl

/-! ### The enrichment validator

Model of `EnrichmentValidator` (src/indexing/validate_enrichment.py).  An
indexed chunk record is modelled with exactly the fields the checks read;
`none` is an absent key.  Python computes the percentages with float
division; every comparison against a threshold is modelled exactly, as the
equivalent integer cross-multiplication, noted at each use. -/

/-- One sampled chunk record from the search index. -/
structure IndexedDoc where
  chunk_id : Option String
  document_id : Option String
  content : Option String
  page_number : Option Nat
  metadata_storage_name : Option String
  metadata_storage_path : Option String
  state : Option String
  has_related_images : Bool
  image_blob_urls : List String
deriving DecidableEq

/-- Python `value is not None and value != '' and value != []` for a string
field. -/
def strFieldPopulated : Option String → Bool
  | none => false
  | some s => s != ""

/-- The same test for an int field: any present int passes. -/
def natFieldPopulated : Option Nat → Bool
  | none => false
  | some _ => true

/-- The `expected_fields` list of `validate_field_population`. -/
def expectedFieldNames : List String :=
  ["chunk_id", "document_id", "content", "page_number",
   "metadata_storage_name", "metadata_storage_path"]

/-- `doc.get(field)` is populated, per expected field. -/
def fieldPopulated (d : IndexedDoc) : String → Bool
  | "chunk_id" => strFieldPopulated d.chunk_id
  | "document_id" => strFieldPopulated d.document_id
  | "content" => strFieldPopulated d.content
  | "page_number" => natFieldPopulated d.page_number
  | "metadata_storage_name" => strFieldPopulated d.metadata_storage_name
  | "metadata_storage_path" => strFieldPopulated d.metadata_storage_path
  | _ => false

/-- `blob['name'].split('/')[-1]`. -/
def blobBaseName (name : String) : String :=
  String.mk ((name.data.splitOn '/').getLastD [])

/-- The non-empty `metadata_storage_name` values of the indexed chunks (the
`indexed_names` set; kept as a list, deduplicated where the set size is
taken). -/
def indexedNamesList (docs : List IndexedDoc) : List String :=
  docs.filterMap (fun d =>
    match d.metadata_storage_name with
    | some s => if s = "" then none else some s
    | none => none)

/-- Result of `validate_document_completeness`. -/
structure CompletenessResult where
  uploaded_count : Nat
  indexed_count : Nat
  missing_documents : List String
  all_indexed : Bool
deriving DecidableEq

/-- `validate_document_completeness` (lines 207-265): an uploaded blob is
missing when its base name is not among the indexed storage names. -/
def validateCompleteness (uploaded : List String) (docs : List IndexedDoc) :
    CompletenessResult :=
  let names := indexedNamesList docs
  let missing := (uploaded.map blobBaseName).filter (fun bn => !names.contains bn)
  { uploaded_count := uploaded.length
    indexed_count := names.dedup.length
    missing_documents := missing
    all_indexed := missing.length == 0 }

/-- Python `doc.get('document_id') or doc.get('metadata_storage_name',
'unknown')`. -/
def docKey (d : IndexedDoc) : String :=
  match d.document_id with
  | some s =>
      if s = "" then
        match d.metadata_storage_name with
        | some m => m
        | none => "unknown"
      else s
  | none =>
      match d.metadata_storage_name with
      | some m => m
      | none => "unknown"

/-- Result of `validate_chunk_generation`. -/
structure ChunkGenResult where
  total_chunks : Nat
  documents : Nat
  counts : List (String × Nat)
  anomalies : List (String × Nat)
deriving DecidableEq

/-- `validate_chunk_generation` (lines 267-345).  With `avg =
total_chunks / documents` (float in Python, exact here), the anomaly tests
`count < avg * 0.25` and `count > avg * 3.0` are rendered exactly by
cross-multiplication: `4 * count * documents < total_chunks` and
`count * documents > 3 * total_chunks`. -/
def validateChunkGeneration (docs : List IndexedDoc) : ChunkGenResult :=
  let keys := docs.map docKey
  let counts := keys.dedup.map (fun k => (k, keys.count k))
  let total := docs.length
  let numDocs := keys.dedup.length
  { total_chunks := total
    documents := numDocs
    counts := counts
    anomalies := counts.filter
      (fun kc => 4 * kc.2 * numDocs < total || kc.2 * numDocs > 3 * total) }

/-- Result of `validate_image_extraction` (only what the status derivation
reads). -/
structure ImageResult where
  total_chunks : Nat
  chunks_with_images : Nat
deriving DecidableEq

/-- Python `has_images or (image_urls and len(image_urls) > 0)`. -/
def chunkHasImages (d : IndexedDoc) : Bool :=
  d.has_related_images || !d.image_blob_urls.isEmpty

/-- `validate_image_extraction` (lines 347-411). -/
def validateImageExtraction (docs : List IndexedDoc) : ImageResult :=
  { total_chunks := docs.length
    chunks_with_images := docs.countP chunkHasImages }

/-- The `image_percentage < 5` test of `validate_all_documents`:
`image_percentage` is `chunks_with_images / total_chunks * 100` when
`total_chunks > 0` and `0` otherwise; the comparison is rendered exactly. -/
def lowImageRate (r : ImageResult) : Bool :=
  if r.total_chunks = 0 then true
  else r.chunks_with_images * 100 < 5 * r.total_chunks

/-- Result of `validate_field_population` in the non-degenerate case:
per-field populated counts, the sample size, and the fields whose coverage
percentage `count / total * 100` is below 95 (exactly:
`count * 100 < 95 * total`). -/
structure FieldResult where
  coverage : List (String × Nat)
  total : Nat
  missing_fields : List (String × Nat)
deriving DecidableEq

/-- The dictionary returned by `validate_field_population`: either the
degenerate `-- 'error': 'No documents to validate' --` dictionary, which has
no `missing_fields` key, or the full result. -/
inductive FieldsDict where
  | errorDict (msg : String)
  | result (r : FieldResult)
deriving DecidableEq

/-- `validate_field_population` (lines 413-485). -/
def validateFieldPopulation (docs : List IndexedDoc) : FieldsDict :=
  match docs with
  | [] => FieldsDict.errorDict "No documents to validate"
  | _ =>
      let total := docs.length
      let coverage := expectedFieldNames.map
        (fun f => (f, docs.countP (fun d => fieldPopulated d f)))
      FieldsDict.result
        { coverage := coverage
          total := total
          missing_fields := coverage.filter (fun p => p.2 * 100 < 95 * total) }

/-- The report assembled by `validate_all_documents`. -/
structure ValidationReport where
  completeness : CompletenessResult
  chunks : ChunkGenResult
  images : ImageResult
  fields : FieldResult
  issues : List String
  overall_status : String
deriving DecidableEq

/-- `validate_all_documents` (lines 487-562).  The issue list is assembled
in source order; reading `report['fields']['missing_fields']` off the
degenerate field dictionary raises a `KeyError`, modelled as the `error`
return. -/
def validateAllDocuments (uploaded : List String) (docs : List IndexedDoc) :
    Except String ValidationReport :=
  let comp := validateCompleteness uploaded docs
  let chk := validateChunkGeneration docs
  let img := validateImageExtraction docs
  let issues1 := if comp.all_indexed then [] else ["missing_documents"]
  let issues2 := issues1 ++ (if chk.anomalies.isEmpty then [] else ["chunk_anomalies"])
  let issues3 := issues2 ++ (if lowImageRate img then ["low_image_extraction"] else [])
  match validateFieldPopulation docs with
  | FieldsDict.errorDict _ => Except.error "KeyError: missing_fields"
  | FieldsDict.result f =>
      let issues := issues3 ++ (if f.missing_fields.isEmpty then [] else ["incomplete_fields"])
      Except.ok
        { completeness := comp
          chunks := chk
          images := img
          fields := f
          issues := issues
          overall_status :=
            if issues.length = 0 then "pass"
            else if issues.length ≤ 2 then "warning"
            else "fail" }

/-- How many of the four independent checks raised an issue. -/
def numIssues (uploaded : List String) (docs : List IndexedDoc) : Nat :=
  (if (validateCompleteness uploaded docs).all_indexed then 0 else 1) +
  (if (validateChunkGeneration docs).anomalies.isEmpty then 0 else 1) +
  (if lowImageRate (validateImageExtraction docs) then 1 else 0) +
  (match validateFieldPopulation docs with
   | FieldsDict.errorDict _ => 0
   | FieldsDict.result f => if f.missing_fields.isEmpty then 0 else 1)

/-- The 0 / 1-2 / 3+ classification policy. -/
def statusOfCount (n : Nat) : String :=
  if n = 0 then "pass" else if n ≤ 2 then "warning" else "fail"

/-- C7: whenever `validate_all_documents` produces a report, its
`overall_status` is determined solely by how many of the four independent
checks (completeness, chunk anomalies, image extraction rate, field
coverage) raised an issue: 0 issues give "pass", 1 or 2 give "warning",
3 or more give "fail". -/
theorem overall_status_from_issue_count (uploaded : List String)
    (docs : List IndexedDoc) (r : ValidationReport)
    (h : validateAllDocuments uploaded docs = Except.ok r) :
    r.issues.length = numIssues uploaded docs ∧
    r.overall_status = statusOfCount (numIssues uploaded docs) := by
  unfold validateAllDocuments at h
  cases hf : validateFieldPopulation docs with
  | errorDict msg => rw [hf] at h; simp at h
  | result f =>
      rw [hf] at h
      simp only [Except.ok.injEq] at h
      subst h
      have hlen : (((if (validateCompleteness uploaded docs).all_indexed then []
            else ["missing_documents"]) ++
          (if (validateChunkGeneration docs).anomalies.isEmpty then []
            else ["chunk_anomalies"]) ++
          (if lowImageRate (validateImageExtraction docs) then ["low_image_extraction"]
            else []) ++
          (if f.missing_fields.isEmpty then [] else ["incomplete_fields"])).length)
          = numIssues uploaded docs := by
        simp only [numIssues, hf, List.length_append]
        split_ifs <;> simp
      refine ⟨hlen, ?_⟩
      simp only [statusOfCount, hlen]

/-- A fully populated sample chunk record. -/
def sampleDoc : IndexedDoc :=
  { chunk_id := some "c1"
    document_id := some "doc.pdf"
    content := some "hello"
    page_number := some 1
    metadata_storage_name := some "doc.pdf"
    metadata_storage_path := some "path"
    state := none
    has_related_images := false
    image_blob_urls := [] }

/-- The report `validate_all_documents` produces for `[sampleDoc]` with no
uploaded blobs: only the low-image-extraction check raises an issue. -/
def sampleReport : ValidationReport :=
  { completeness :=
      { uploaded_count := 0, indexed_count := 1, missing_documents := [], all_indexed := true }
    chunks :=
      { total_chunks := 1, documents := 1, counts := [("doc.pdf", 1)], anomalies := [] }
    images := { total_chunks := 1, chunks_with_images := 0 }
    fields :=
      { coverage := [("chunk_id", 1), ("document_id", 1), ("content", 1),
          ("page_number", 1), ("metadata_storage_name", 1), ("metadata_storage_path", 1)]
        total := 1
        missing_fields := [] }
    issues := ["low_image_extraction"]
    overall_status := "warning" }

/-- C7 witness: the issue-count classification at a concrete one-chunk
index. -/
theorem overall_status_from_issue_count_witness :
    sampleReport.issues.length = numIssues [] [sampleDoc] ∧
    sampleReport.overall_status = statusOfCount (numIssues [] [sampleDoc]) :=
  overall_status_from_issue_count [] [sampleDoc] sampleReport (by rfl)

/-- C8 (code evaluated at the failing input): on an empty index — no
uploaded blobs, zero sampled chunks — `validate_all_documents` does not
return a report at all: `validate_field_population` returns the degenerate
error dictionary, and reading `report['fields']['missing_fields']` from it
raises a `KeyError`.  The claim (never raise; always return a structured
pass/warning/fail report) names exactly this input as covered. -/
theorem empty_index_validation_key_error :
    validateAllDocuments [] [] = Except.error "KeyError: missing_fields" := rfl

/-! ### Embedder and index writer

Models of `DocumentIndexer.generate_embeddings` (lines 215-235),
`DocumentIndexer.upload_to_search` (lines 237-257) and the batching loop of
`DocumentIndexer.index_document` (lines 286-299). -/

/-- `generate_embeddings`: the external embedding service (`svc`) returns,
per its contract, one vector per input string in request order; the final
log statement evaluates `len(embeddings[0])`, which raises an `IndexError`
when the batch is empty.  The vector type `α` is opaque. -/
def generateEmbeddings {α : Type} (svc : String → α) (texts : List String) :
    Except String (List α) :=
  let embeddings := texts.map svc
  if embeddings.isEmpty then Except.error "IndexError: list index out of range"
  else Except.ok embeddings

/-- One per-document result from `merge_or_upload_documents`. -/
structure UploadResult where
  key : String
  succeeded : Bool
  error_message : String
deriving DecidableEq

/-- What `upload_to_search` computes and logs from one batch. -/
structure UploadReport where
  succeeded_count : Nat
  failed_count : Nat
  failure_logs : List (String × String)
deriving DecidableEq

/-- `upload_to_search`: the search service (`svc`, the external
`merge_or_upload_documents` call) returns a per-chunk result list; the
function counts successes and failures and logs every failed chunk's key and
message — the log lines are its observable output, returned here. -/
def uploadToSearch {γ : Type} (svc : List γ → List UploadResult) (chunks : List γ) :
    UploadReport :=
  let result := svc chunks
  { succeeded_count := result.countP (fun r => r.succeeded)
    failed_count := result.countP (fun r => !r.succeeded)
    failure_logs := (result.filter (fun r => !r.succeeded)).map
      (fun r => (r.key, r.error_message)) }

/-- The batch slices `chunks[i:i+k]` for `i in range(0, len(chunks), k)`. -/
def batchSplit {γ : Type} (k : Nat) (hk : 0 < k) : List γ → List (List γ)
  | [] => []
  | x :: xs => (x :: xs).take k :: batchSplit k hk ((x :: xs).drop k)
  termination_by l => l.length
  decreasing_by simp [List.length_drop]; omega

/-- Steps 4 and 5 of `index_document`, over the batch list: embed each
batch's contents, attach the vectors positionally (`zip`), upload the batch,
and go on to the next batch — there is no abort path after a batch whose
upload reports failures. -/
def indexBatchesGo {γ α : Type} (embSvc : String → α)
    (searchSvc : List (γ × α) → List UploadResult) (contentOf : γ → String) :
    List (List γ) → Except String (List UploadReport)
  | [] => Except.ok []
  | batch :: rest =>
      match generateEmbeddings embSvc (batch.map contentOf) with
      | Except.error e => Except.error e
      | Except.ok es =>
          match indexBatchesGo embSvc searchSvc contentOf rest with
          | Except.error e => Except.error e
          | Except.ok reports =>
              Except.ok (uploadToSearch searchSvc (batch.zip es) :: reports)

/-- The embed-and-upload loop of `index_document` on a chunk list, with the
Azure OpenAI batch limit of 100. -/
def indexDocumentBatches {γ α : Type} (embSvc : String → α)
    (searchSvc : List (γ × α) → List UploadResult) (contentOf : γ → String)
    (chunks : List γ) : Except String (List UploadReport) :=
  indexBatchesGo embSvc searchSvc contentOf (batchSplit 100 (by omega) chunks)

theorem batchSplit_ne_nil {γ : Type} (k : Nat) (hk : 0 < k) :
    ∀ l : List γ, ∀ b ∈ batchSplit k hk l, b ≠ [] := by
  intro l
  induction l using batchSplit.induct k hk with
  | case1 => intro b hb; simp [batchSplit] at hb
  | case2 x xs ih =>
      intro b hb
      simp only [batchSplit, List.mem_cons] at hb
      rcases hb with hb | hb
      · subst hb
        cases k with
        | zero => omega
        | succ m => simp
      · exact ih b hb

theorem indexBatchesGo_spec {γ α : Type} (embSvc : String → α)
    (searchSvc : List (γ × α) → List UploadResult) (contentOf : γ → String) :
    ∀ bs : List (List γ), (∀ b ∈ bs, b ≠ []) →
      indexBatchesGo embSvc searchSvc contentOf bs =
        Except.ok (bs.map (fun b =>
          uploadToSearch searchSvc (b.zip ((b.map contentOf).map embSvc)))) := by
  intro bs
  induction bs with
  | nil => intro _; rfl
  | cons batch rest ih =>
      intro hne
      have hbatch : batch ≠ [] := hne batch (by simp)
      have hemb : generateEmbeddings embSvc (batch.map contentOf)
          = Except.ok ((batch.map contentOf).map embSvc) := by
        unfold generateEmbeddings
        rw [if_neg (by simp [hbatch])]
      simp only [indexBatchesGo, hemb, ih (fun b hb => hne b (by simp [hb])), List.map_cons]

/-- C9: the upload path returns one per-chunk success/failure result list
per batch (the `merge_or_upload_documents` result that `upload_to_search`
receives, counts and logs), and a partial failure inside one batch does not
abort the remaining batches of the document: whatever per-chunk outcomes the
search service reports, every batch is attempted — the report list has one
entry per batch — and the aggregated failure logs list exactly the failed
chunks of every batch, none dropped. -/
theorem upload_failures_aggregated_all_batches {γ α : Type} (embSvc : String → α)
    (searchSvc : List (γ × α) → List UploadResult) (contentOf : γ → String)
    (chunks : List γ) :
    ∃ reports, indexDocumentBatches embSvc searchSvc contentOf chunks = Except.ok reports ∧
      reports.length = (batchSplit 100 (by omega) chunks).length ∧
      reports.flatMap UploadReport.failure_logs =
        (batchSplit 100 (by omega) chunks).flatMap (fun b =>
          ((searchSvc (b.zip ((b.map contentOf).map embSvc))).filter
            (fun r => !r.succeeded)).map (fun r => (r.key, r.error_message))) := by
  have hspec := indexBatchesGo_spec embSvc searchSvc contentOf
    (batchSplit 100 (by omega) chunks) (batchSplit_ne_nil 100 (by omega) chunks)
  refine ⟨_, hspec, by simp, ?_⟩
  rw [List.flatMap_map]
  rfl

/-- C10 (counterexample): on the empty batch, `generate_embeddings` does not
return an empty vector list — the final log statement indexes
`embeddings[0]` and raises an `IndexError`. -/
theorem embeddings_empty_batch_counterexample :
    generateEmbeddings (fun _ : String => (0 : Nat)) ([] : List String)
      = Except.error "IndexError: list index out of range" := rfl

/-- C10 (amended): for every non-empty input list the Embedder returns one
vector per input text, in order (output length equals input length); for the
empty list it raises an `IndexError` instead of returning an empty vector
list. -/
theorem embeddings_length_amended {α : Type} (svc : String → α) :
    (generateEmbeddings svc ([] : List String)
      = Except.error "IndexError: list index out of range") ∧
    (∀ texts : List String, texts ≠ [] →
      generateEmbeddings svc texts = Except.ok (texts.map svc) ∧
      (texts.map svc).length = texts.length) := by
  refine ⟨rfl, ?_⟩
  intro texts hne
  constructor
  · unfold generateEmbeddings
    rw [if_neg (by simp [hne])]
  · simp

/-- C10 witness: the amended statement at a concrete service and batch. -/
theorem embeddings_length_amended_witness :
    generateEmbeddings (fun _ : String => (0 : Nat)) ["a", "b"] = Except.ok [0, 0] ∧
    (["a", "b"].map (fun _ : String => (0 : Nat))).length = (["a", "b"] : List String).length :=
  (embeddings_length_amended (fun _ : String => (0 : Nat))).2 ["a", "b"] (by decide)

end DMA
